import Mathlib

/-!
Shallow embedding of the named-event dispatch core (the `EventEmitter`,
`Event` and `Execution` classes of the repository's event module) and
proofs about it.

Modelling conventions:
- Object identity: `Event` objects are identified by their `eventId`
  (the emitter's id counter only grows, so ids are unique), executions
  by `executionId` within their event.  Back references
  (`Execution.eventInstance`) are modelled by carrying these ids.
- The host runtime's timer queue (`setTimeout` / `clearTimeout`) is an
  explicit list of pending `Timer`s inside a `World` state; firing a
  timer is a separate step (`fireTimer`).
- `Execution.execute` is an `async` function.  Its synchronous prefix
  (disarm the expiration timer, the `onlyOneExecutionAtATime` guard,
  `isExecuting := true`, the call into the user callback) runs during the
  fan-out (`executeStep`).  The continuation after `await` (clear
  `isExecuting`, set `hasExecuted`, self-removal under
  `removeAfterExecute`) runs as a later event-loop step (`finishRun`),
  except when the user callback raises synchronously: then the
  `try`/`catch` catches it at once and the continuation runs inline,
  still inside the fan-out (the `thrw` parameter selects that case).
- User callbacks are opaque: an invocation is recorded in an observable
  `log` together with the emitted arguments; whether the callback's
  promise resolves or rejects is the `Outcome` argument of `finishRun`.
- The emitter's `nameId` field (a random diagnostic string) carries no
  behaviour and is omitted.
-/

namespace EmitEvents

/-- Arguments of an emission, passed through unchanged to callbacks. -/
abbrev Args := List Nat

/-- Observable actions of the core: a user callback invoked with the
emitted arguments, or an expiration (`onExpire`) callback invoked.
Both name the owning event object and execution by id. -/
inductive LogEntry where
  | invoke (eventId executionId : Nat) (args : Args)
  | expire (eventId executionId : Nat)
deriving DecidableEq, Repr

/-- The `parameters` object stored on an `Execution` (defaults as in the
class field initialiser of the source). -/
structure ExecutionParams where
  expirationEnabled : Bool := false
  expirationTimeMs : Int := -1
  removeAfterExecute : Bool := false
  onlyOneExecutionAtATime : Bool := false
deriving DecidableEq, Repr

/-- The `state` object stored on an `Execution`.  `expirationTimeout` is
`none` while the field still holds its initial `-1`, and `some tid`
once `setTimeout` returned the handle `tid` (the source never resets the
field, so it stays `some tid` after `clearTimeout`). -/
structure ExecutionState where
  isExecuting : Bool := false
  hasExecuted : Bool := false
  expirationTimeout : Option Nat := none
deriving DecidableEq, Repr

/-- One registered callback: the `Execution` class. -/
structure Execution where
  executionId : Nat
  parameters : ExecutionParams
  state : ExecutionState
deriving DecidableEq, Repr

/-- One named bucket of executions: the `Event` class. -/
structure Event where
  eventName : String
  eventId : Nat
  executions : List Execution := []
  executionCounter : Nat := 0
deriving DecidableEq, Repr

/-- The registry: the `EventEmitter` class (its random `nameId` is
omitted, see the module docstring). -/
structure EventEmitter where
  events : List Event := []
  eventIds : Nat := 0
deriving DecidableEq, Repr

/-- A pending `setTimeout` armed by `activateAutomaticCancellation`; the
closure captures the `Execution` object, modelled by the id pair. -/
structure Timer where
  timerId : Nat
  eventId : Nat
  executionId : Nat
deriving DecidableEq, Repr

/-- The continuation of `Execution.execute` after its `await`, waiting in
the event loop for the user callback to settle.  It captures the fields
of the `Execution` object it will read: `removeAfterExecute` and the
stored timer handle are set at construction and never change. -/
structure PendingFinish where
  eventId : Nat
  executionId : Nat
  removeAfterExecute : Bool
  expirationTimeout : Option Nat
deriving DecidableEq, Repr

/-- The whole program state: the emitter plus the host runtime's timer
queue, the in-flight callback continuations and the observable log. -/
structure World where
  emitter : EventEmitter := {}
  timers : List Timer := []
  nextTimerId : Nat := 0
  pending : List PendingFinish := []
  log : List LogEntry := []
deriving DecidableEq, Repr

/-- The optional `expireAfterMs` member of the `parameters` argument of
`addEvent` (an `EventExpiration`: time plus an opaque `onExpire`
callback, the latter identified by the execution it belongs to). -/
structure ExpireAfterMs where
  expireAfterMs : Int
deriving DecidableEq, Repr

/-- The optional `parameters` argument of `addEvent`
(`ExecutionParameters` in the source); each member may be `undefined`. -/
structure AddEventParams where
  removeAfterExecute : Option Bool := none
  expireAfterMs : Option ExpireAfterMs := none
  onlyOneInstance : Option Bool := none
deriving DecidableEq, Repr

/-- The body of the `Execution` constructor: start from the field
defaults, then override each member that is not `undefined`. -/
def buildParams (parameters : Option AddEventParams) : ExecutionParams :=
  match parameters with
  | none => {}
  | some p =>
    let q : ExecutionParams := {}
    let q := match p.removeAfterExecute with
      | none => q
      | some b => {q with removeAfterExecute := b}
    let q := match p.expireAfterMs with
      | none => q
      | some ex => {q with expirationEnabled := true, expirationTimeMs := ex.expireAfterMs}
    match p.onlyOneInstance with
    | none => q
    | some b => {q with onlyOneExecutionAtATime := b}

/-- Host runtime `clearTimeout`: the timer with this handle (if still
pending) never fires. -/
def clearTimeout (timers : List Timer) (tid : Nat) : List Timer :=
  timers.filter (fun t => t.timerId != tid)

/-- `Execution.stopAutomaticCancellation`: a no-op while
`state.expirationTimeout` still holds `-1`, otherwise `clearTimeout` on
the stored handle. -/
def stopAutomaticCancellation (timers : List Timer) (st : ExecutionState) : List Timer :=
  match st.expirationTimeout with
  | none => timers
  | some tid => clearTimeout timers tid

/-- In-place field mutation of the execution object with the given id
inside an event's `executions` array. -/
def updateExecution (xs : List Execution) (i : Nat) (f : Execution → Execution) :
    List Execution :=
  xs.map (fun e => if e.executionId == i then f e else e)

/-- Mutation `this.state.isExecuting = true` of `Execution.execute`. -/
def setRunning (x : Execution) : Execution :=
  {x with state := {x.state with isExecuting := true}}

/-- Mutations `this.state.isExecuting = false; this.state.hasExecuted =
true` after the callback settled. -/
def setFinished (x : Execution) : Execution :=
  {x with state := {x.state with isExecuting := false, hasExecuted := true}}

/-- The mutable pieces touched by a fan-out: the event's `executions`
array together with the world's timers, continuations and log. -/
structure FanState where
  executions : List Execution
  timers : List Timer
  pending : List PendingFinish
  log : List LogEntry
deriving DecidableEq, Repr

/-- The synchronous prefix of `Execution.execute` for the snapshot
element `e`, run during the fan-out of event object `evId`:
`stopAutomaticCancellation()`, then the `onlyOneExecutionAtATime` guard,
then `isExecuting := true` and the call into the user callback.
`thrw e.executionId` tells whether this callback raises synchronously;
if so the `try`/`catch` catches it at once and the rest of
`Execution.execute` runs inline (set `isExecuting`/`hasExecuted`, then
`cancel()` under `removeAfterExecute`); otherwise the continuation is
parked as a `PendingFinish`. -/
def executeStep (evId : Nat) (args : Args) (thrw : Nat → Bool)
    (s : FanState) (e : Execution) : FanState :=
  let timers := stopAutomaticCancellation s.timers e.state
  if e.state.isExecuting && e.parameters.onlyOneExecutionAtATime then
    {s with timers := timers}
  else
    let executions := updateExecution s.executions e.executionId setRunning
    let log := s.log ++ [.invoke evId e.executionId args]
    if thrw e.executionId then
      let executions := updateExecution executions e.executionId setFinished
      if e.parameters.removeAfterExecute then
        -- Execution.cancel(): stopAutomaticCancellation + removeExecution
        let timers := stopAutomaticCancellation timers e.state
        {executions := executions.filter (fun x => x.executionId != e.executionId),
         timers := timers, pending := s.pending, log := log}
      else
        {executions := executions, timers := timers, pending := s.pending, log := log}
    else
      {executions := executions, timers := timers,
       pending := s.pending ++ [⟨evId, e.executionId, e.parameters.removeAfterExecute,
                                 e.state.expirationTimeout⟩],
       log := log}

/-- `Event.execute`: `this.executions.forEach(execution =>
execution.execute(...args))`.  Removal replaces the `executions` array
by a fresh `filter` result, so `forEach` iterates the snapshot taken at
fan-out start; the fold mirrors that by walking the snapshot while
threading the current state. -/
def eventExecute (ev : Event) (args : Args) (thrw : Nat → Bool)
    (timers : List Timer) (pending : List PendingFinish) (log : List LogEntry) :
    FanState :=
  ev.executions.foldl (executeStep ev.eventId args thrw)
    ⟨ev.executions, timers, pending, log⟩

/-- `Event.addExecution` together with the `Execution` constructor: the
new execution gets id `executionCounter`, and
`activateAutomaticCancellation` arms a `setTimeout` when expiration is
configured.  Returns the updated event, timers, next timer handle and
the new execution's id. -/
def addExecution (ev : Event) (parameters : Option AddEventParams)
    (timers : List Timer) (nextTimerId : Nat) :
    Event × List Timer × Nat × Nat :=
  let ps := buildParams parameters
  let execId := ev.executionCounter
  if ps.expirationEnabled then
    let ex : Execution :=
      ⟨execId, ps, {isExecuting := false, hasExecuted := false,
                    expirationTimeout := some nextTimerId}⟩
    ({ev with executions := ev.executions ++ [ex],
              executionCounter := ev.executionCounter + 1},
     timers ++ [⟨nextTimerId, ev.eventId, execId⟩], nextTimerId + 1, execId)
  else
    let ex : Execution := ⟨execId, ps, {}⟩
    ({ev with executions := ev.executions ++ [ex],
              executionCounter := ev.executionCounter + 1},
     timers, nextTimerId, execId)

/-- `EventEmitter.addEvent`: look the event up by name, create it if
absent (note the source increments `eventIds` twice: once as the
constructor argument `this.eventIds++` and once more on the next line),
then add an execution.  Returns the world and the new execution id (the
returned handle is `{remove: () => removeExecution(eventName, id),
eventName, executionId: id}`). -/
def addEvent (w : World) (eventName : String) (parameters : Option AddEventParams) :
    World × Nat :=
  match w.emitter.events.find? (fun e => e.eventName == eventName) with
  | some ev =>
    let r := addExecution ev parameters w.timers w.nextTimerId
    let em := {w.emitter with
      events := w.emitter.events.map (fun e => if e.eventId == ev.eventId then r.1 else e)}
    ({w with emitter := em, timers := r.2.1, nextTimerId := r.2.2.1}, r.2.2.2)
  | none =>
    let ev : Event := {eventName := eventName, eventId := w.emitter.eventIds}
    let r := addExecution ev parameters w.timers w.nextTimerId
    let em := {w.emitter with
      events := w.emitter.events ++ [r.1],
      eventIds := w.emitter.eventIds + 2}
    ({w with emitter := em, timers := r.2.1, nextTimerId := r.2.2.1}, r.2.2.2)

/-- `EventEmitter.emitEvent`: look the event up by name; silently return
when absent, otherwise fan out (`event.execute(...args)`).  The mutated
event object is written back at every position holding it. -/
def emitEvent (w : World) (eventName : String) (args : Args) (thrw : Nat → Bool) :
    World :=
  match w.emitter.events.find? (fun e => e.eventName == eventName) with
  | none => w
  | some ev =>
    let s := eventExecute ev args thrw w.timers w.pending w.log
    let em := {w.emitter with
      events := w.emitter.events.map (fun e =>
        if e.eventId == ev.eventId then {ev with executions := s.executions} else e)}
    {w with emitter := em, timers := s.timers, pending := s.pending, log := s.log}

/-- `EventEmitter.removeExecution` (the target of the handle's
`remove()`): look the event up by name; silently return when absent;
otherwise `event.removeExecution(id)` (filter the executions array) and,
when no executions remain, drop the event from the emitter.  Pending
expiration timers are not touched on this path. -/
def removeExecution (w : World) (eventName : String) (executionId : Nat) : World :=
  match w.emitter.events.find? (fun e => e.eventName == eventName) with
  | none => w
  | some ev =>
    let ev2 := {ev with
      executions := ev.executions.filter (fun x => x.executionId != executionId)}
    let events := w.emitter.events.map (fun e => if e.eventId == ev.eventId then ev2 else e)
    if ev2.executions.length == 0 then
      {w with emitter := {w.emitter with
        events := events.filter (fun e => e.eventName != eventName)}}
    else
      {w with emitter := {w.emitter with events := events}}

/-- `EventEmitter.removeEvent`: drop every event with this name.  Pending
expiration timers are not touched. -/
def removeEvent (w : World) (eventName : String) : World :=
  {w with emitter := {w.emitter with
    events := w.emitter.events.filter (fun e => e.eventName != eventName)}}

/-- `EventEmitter.removeAllEvents`. -/
def removeAllEvents (w : World) : World :=
  {w with emitter := {w.emitter with events := []}}

/-- Settlement of a user callback's promise: it resolved, or it rejected
with an error. -/
inductive Outcome where
  | ok
  | error
deriving DecidableEq, Repr

/-- Shared continuation of `Execution.execute` after the callback
settled: `isExecuting := false; hasExecuted := true`, then `cancel()`
(clear the stored timer handle and detach from the event object) when
`removeAfterExecute` is set.  The captured `Execution` object is located
through its event object's id; when that event object is no longer in
the registry the mutations hit a detached object and are unobservable. -/
def finishCore (w : World) (pf : PendingFinish) : World :=
  if pf ∈ w.pending then
    let events := w.emitter.events.map (fun ev =>
      if ev.eventId == pf.eventId then
        {ev with executions := updateExecution ev.executions pf.executionId setFinished}
      else ev)
    if pf.removeAfterExecute then
      let timers := match pf.expirationTimeout with
        | none => w.timers
        | some tid => clearTimeout w.timers tid
      let events := events.map (fun ev =>
        if ev.eventId == pf.eventId then
          {ev with executions :=
            ev.executions.filter (fun x => x.executionId != pf.executionId)}
        else ev)
      {w with emitter := {w.emitter with events := events}, timers := timers,
              pending := w.pending.erase pf}
    else
      {w with emitter := {w.emitter with events := events},
              pending := w.pending.erase pf}
  else w

/-- Event-loop step: a parked continuation of `Execution.execute` runs
once its callback settled.  The `try { await ... } catch (ex) { }`
around the callback discards a rejection, so both outcomes continue
into the same code. -/
def finishRun (w : World) (pf : PendingFinish) (outcome : Outcome) : World :=
  match outcome with
  | .ok => finishCore w pf
  | .error => finishCore w pf

/-- Event-loop step: a pending expiration `setTimeout` fires.  The
callback of `activateAutomaticCancellation` invokes the configured
`onExpire` callback first, then `this.cancel()`, which clears the (just
fired) handle and detaches the execution from its event object; the
detachment is observable only while that event object is still in the
registry. -/
def fireTimer (w : World) (tid : Nat) : World :=
  match w.timers.find? (fun t => t.timerId == tid) with
  | none => w
  | some t =>
    let timers := clearTimeout w.timers tid
    let log := w.log ++ [.expire t.eventId t.executionId]
    let timers := clearTimeout timers tid
    let events := w.emitter.events.map (fun ev =>
      if ev.eventId == t.eventId then
        {ev with executions :=
          ev.executions.filter (fun x => x.executionId != t.executionId)}
      else ev)
    {w with emitter := {w.emitter with events := events}, timers := timers, log := log}

/-- The invocations one fan-out of `ev` with arguments `args` appends to
the log: every snapshot execution that passes the
`onlyOneExecutionAtATime` guard, in registration order. -/
def fanOutLog (ev : Event) (args : Args) : List LogEntry :=
  (ev.executions.filter
      (fun e => !(e.state.isExecuting && e.parameters.onlyOneExecutionAtATime))).map
    (fun e => LogEntry.invoke ev.eventId e.executionId args)

/-- The event object after `Event.removeExecution` filtered out the
execution with id `i`. -/
def removalResult (ev : Event) (i : Nat) : Event :=
  {ev with executions := ev.executions.filter (fun x => x.executionId != i)}

/-- The emitter's event array after `EventEmitter.removeExecution` wrote
the mutated event object back (before the emptiness check). -/
def removalWriteBack (events : List Event) (ev : Event) (i : Nat) : List Event :=
  events.map (fun e => if e.eventId == ev.eventId then removalResult ev i else e)

/-! Concrete scenarios (worlds reached through the public API from the
empty registry) used by witnesses and counterexamples. -/

/-- A subscription with a 50ms expiration on a fresh registry. -/
def wExpire : World := (addEvent {} "a" (some {expireAfterMs := some ⟨50⟩})).1

/-- The execution object created in `wExpire`. -/
def eExpire : Execution :=
  ⟨0, {expirationEnabled := true, expirationTimeMs := 50},
   {expirationTimeout := some 0}⟩

/-- The event object created in `wExpire`. -/
def evExpire : Event :=
  {eventName := "a", eventId := 0, executions := [eExpire], executionCounter := 1}

/-- `wExpire` after calling the returned handle's `remove()`. -/
def wExpireRemoved : World := removeExecution wExpire "a" 0

/-- A one-shot (`removeAfterExecute`) subscription on a fresh registry. -/
def wOneShot : World := (addEvent {} "a" (some {removeAfterExecute := some true})).1

/-- `wOneShot` after an emission: the callback was invoked and its
continuation is parked in the event loop. -/
def wOneShotEmitted : World := emitEvent wOneShot "a" [] (fun _ => false)

/-- `wOneShotEmitted` after the parked continuation ran: the execution
removed itself from the event object. -/
def wOneShotDone : World := finishRun wOneShotEmitted ⟨0, 0, true, none⟩ Outcome.ok

/-- The (empty) event object left behind in `wOneShotDone`. -/
def evOneShotDone : Event :=
  {eventName := "a", eventId := 0, executions := [], executionCounter := 1}

/-- Churn: subscribe on a fresh registry, then remove through the
returned handle (the event drops to zero executions and is removed),
then subscribe to the same name again. -/
def churnFirst : World × Nat := addEvent {} "a" none

/-- The registry after the first churn removal. -/
def wChurnRemoved : World := removeExecution churnFirst.1 "a" churnFirst.2

/-- The re-subscription after the churn removal. -/
def churnSecond : World × Nat := addEvent wChurnRemoved "a" none

/-- Two subscriptions on one event name, the first one one-shot. -/
def wTwoSubs : World :=
  (addEvent (addEvent {} "a" (some {removeAfterExecute := some true})).1 "a" none).1

/-- The first (one-shot) execution object of `wTwoSubs`. -/
def eTwoSubsHead : Execution := ⟨0, {removeAfterExecute := true}, {}⟩

/-- The event object of `wTwoSubs`. -/
def evTwoSubs : Event :=
  {eventName := "a", eventId := 0,
   executions := [eTwoSubsHead, ⟨1, {}, {}⟩], executionCounter := 2}

/-- A subscription with `onlyOneInstance` on a fresh registry. -/
def wGuard : World := (addEvent {} "a" (some {onlyOneInstance := some true})).1

/-- `wGuard` after an emission whose callback is still running. -/
def wGuardRunning : World := emitEvent wGuard "a" [1] (fun _ => false)

/-- The execution object of `wGuardRunning` (mid-run). -/
def eGuardRunning : Execution :=
  ⟨0, {onlyOneExecutionAtATime := true}, {isExecuting := true}⟩

/-- The event object of `wGuardRunning`. -/
def evGuardRunning : Event :=
  {eventName := "a", eventId := 0, executions := [eGuardRunning], executionCounter := 1}

/-- `wGuardRunning` after the first run's continuation completed. -/
def wGuardIdle : World := finishRun wGuardRunning ⟨0, 0, false, none⟩ Outcome.ok

/-- The execution object of `wGuardIdle` (idle again, `hasExecuted`). -/
def eGuardIdle : Execution :=
  ⟨0, {onlyOneExecutionAtATime := true}, {isExecuting := false, hasExecuted := true}⟩

/-- The event object of `wGuardIdle`. -/
def evGuardIdle : Event :=
  {eventName := "a", eventId := 0, executions := [eGuardIdle], executionCounter := 1}

/-! Helper lemmas about the fan-out fold. -/

theorem setRunning_executionId (x : Execution) :
    (setRunning x).executionId = x.executionId := rfl

theorem setFinished_executionId (x : Execution) :
    (setFinished x).executionId = x.executionId := rfl

theorem mem_stopAutomaticCancellation {timers : List Timer} {st : ExecutionState}
    {t : Timer} (h : t ∈ stopAutomaticCancellation timers st) : t ∈ timers := by
  unfold stopAutomaticCancellation at h
  cases hst : st.expirationTimeout with
  | none => rwa [hst] at h
  | some tid =>
    rw [hst] at h
    exact (List.mem_filter.mp h).1

theorem mem_clearTimeout_ne {timers : List Timer} {tid : Nat} {t : Timer}
    (h : t ∈ clearTimeout timers tid) : t.timerId ≠ tid := by
  have := (List.mem_filter.mp h).2
  exact bne_iff_ne.mp this

/-- Every branch of the synchronous prefix leaves the timer list a
sublist of `stopAutomaticCancellation s.timers e.state`. -/
theorem executeStep_timers_sub {evId : Nat} {args : Args} {thrw : Nat → Bool}
    {s : FanState} {e : Execution} {t : Timer}
    (h : t ∈ (executeStep evId args thrw s e).timers) :
    t ∈ stopAutomaticCancellation s.timers e.state := by
  unfold executeStep at h
  dsimp at h
  split at h
  · exact h
  · split at h
    · split at h
      · exact mem_stopAutomaticCancellation h
      · exact h
    · exact h

theorem executeStep_timers_mono {evId : Nat} {args : Args} {thrw : Nat → Bool}
    {s : FanState} {e : Execution} {t : Timer}
    (h : t ∈ (executeStep evId args thrw s e).timers) : t ∈ s.timers :=
  mem_stopAutomaticCancellation (executeStep_timers_sub h)

/-- Once a trigger reached an execution whose timer handle is `tid`, the
timer with that handle is gone, whatever the guard did. -/
theorem executeStep_timers_cleared {evId : Nat} {args : Args} {thrw : Nat → Bool}
    {s : FanState} {e : Execution} {tid : Nat}
    (he : e.state.expirationTimeout = some tid) {t : Timer}
    (h : t ∈ (executeStep evId args thrw s e).timers) : t.timerId ≠ tid := by
  have hsub := executeStep_timers_sub h
  unfold stopAutomaticCancellation at hsub
  rw [he] at hsub
  exact mem_clearTimeout_ne hsub

theorem foldl_timers_mono {evId : Nat} {args : Args} {thrw : Nat → Bool} :
    ∀ (l : List Execution) (s : FanState) (t : Timer),
      t ∈ (l.foldl (executeStep evId args thrw) s).timers → t ∈ s.timers := by
  intro l
  induction l with
  | nil => intro s t h; exact h
  | cons x l ih =>
    intro s t h
    exact executeStep_timers_mono (ih (executeStep evId args thrw s x) t h)

theorem foldl_timers_absent {evId : Nat} {args : Args} {thrw : Nat → Bool} {tid : Nat} :
    ∀ (l : List Execution) (s : FanState),
      (∀ t ∈ s.timers, t.timerId ≠ tid) →
      ∀ t ∈ (l.foldl (executeStep evId args thrw) s).timers, t.timerId ≠ tid := by
  intro l
  induction l with
  | nil => intro s hs t ht; exact hs t ht
  | cons x l ih =>
    intro s hs t ht
    refine ih (executeStep evId args thrw s x) ?_ t ht
    intro u hu
    exact hs u (executeStep_timers_mono hu)

/-- The log produced by one synchronous prefix: one `invoke` entry when
the guard passes, nothing when the trigger is dropped. -/
theorem executeStep_log (evId : Nat) (args : Args) (thrw : Nat → Bool)
    (s : FanState) (e : Execution) :
    (executeStep evId args thrw s e).log =
      s.log ++ (if e.state.isExecuting && e.parameters.onlyOneExecutionAtATime then []
                else [LogEntry.invoke evId e.executionId args]) := by
  unfold executeStep
  dsimp
  split
  · simp
  · split
    · split <;> simp
    · simp

/-- The fan-out fold appends exactly one `invoke` entry per
guard-passing snapshot element, in snapshot order. -/
theorem foldl_log (evId : Nat) (args : Args) (thrw : Nat → Bool) :
    ∀ (l : List Execution) (s : FanState),
      (l.foldl (executeStep evId args thrw) s).log =
        s.log ++ (l.filter
            (fun e => !(e.state.isExecuting && e.parameters.onlyOneExecutionAtATime))).map
          (fun e => LogEntry.invoke evId e.executionId args) := by
  intro l
  induction l with
  | nil => intro s; simp
  | cons x l ih =>
    intro s
    rw [List.foldl_cons, ih, executeStep_log, List.filter_cons]
    cases hg : (x.state.isExecuting && x.parameters.onlyOneExecutionAtATime) <;>
      simp [hg]

/-- Untouched elements survive one step: a snapshot element with a
different id neither moves nor changes another execution object. -/
theorem executeStep_mem_preserve {evId : Nat} {args : Args} {thrw : Nat → Bool}
    {s : FanState} {e v : Execution}
    (hne : v.executionId ≠ e.executionId) (hv : v ∈ s.executions) :
    v ∈ (executeStep evId args thrw s e).executions := by
  have hbeq : (v.executionId == e.executionId) = false := by
    simpa using hne
  have hbne : (v.executionId != e.executionId) = true := by
    simpa using hne
  have hupd : ∀ (xs : List Execution) (f : Execution → Execution),
      v ∈ xs → v ∈ updateExecution xs e.executionId f := by
    intro xs f hmem
    unfold updateExecution
    refine List.mem_map.mpr ⟨v, hmem, ?_⟩
    simp [hbeq]
  unfold executeStep
  dsimp
  split
  · exact hv
  · split
    · split
      · exact List.mem_filter.mpr ⟨hupd _ setFinished (hupd _ setRunning hv), hbne⟩
      · exact hupd _ setFinished (hupd _ setRunning hv)
    · exact hupd _ setRunning hv

theorem foldl_mem_preserve {evId : Nat} {args : Args} {thrw : Nat → Bool} {v : Execution} :
    ∀ (l : List Execution) (s : FanState),
      (∀ x ∈ l, v.executionId ≠ x.executionId) → v ∈ s.executions →
      v ∈ (l.foldl (executeStep evId args thrw) s).executions := by
  intro l
  induction l with
  | nil => intro s _ hv; exact hv
  | cons x l ih =>
    intro s hne hv
    exact ih _ (fun y hy => hne y (List.mem_cons_of_mem x hy))
      (executeStep_mem_preserve (hne x (List.mem_cons_self x l)) hv)

/-- Ids present after one step were present before: mutations preserve
`executionId` and removal only shrinks the array. -/
theorem executeStep_ids_sub {evId : Nat} {args : Args} {thrw : Nat → Bool}
    {s : FanState} {e y : Execution}
    (h : y ∈ (executeStep evId args thrw s e).executions) :
    ∃ a ∈ s.executions, y.executionId = a.executionId := by
  have hupd : ∀ (xs : List Execution) (f : Execution → Execution),
      (∀ a, (f a).executionId = a.executionId) →
      ∀ z ∈ updateExecution xs e.executionId f, ∃ a ∈ xs, z.executionId = a.executionId := by
    intro xs f hf z hz
    unfold updateExecution at hz
    obtain ⟨a, ha, hza⟩ := List.mem_map.mp hz
    refine ⟨a, ha, ?_⟩
    by_cases hc : (a.executionId == e.executionId) = true
    · rw [if_pos hc] at hza; rw [← hza, hf]
    · rw [if_neg hc] at hza; rw [← hza]
  unfold executeStep at h
  dsimp at h
  split at h
  · exact ⟨y, h, rfl⟩
  · split at h
    · split at h
      · obtain ⟨z, hz, hyz⟩ :=
          hupd _ setFinished (fun a => rfl) y (List.mem_filter.mp h).1
        obtain ⟨a, ha, hza⟩ := hupd _ setRunning (fun a => rfl) z hz
        exact ⟨a, ha, hyz.trans hza⟩
      · obtain ⟨z, hz, hyz⟩ := hupd _ setFinished (fun a => rfl) y h
        obtain ⟨a, ha, hza⟩ := hupd _ setRunning (fun a => rfl) z hz
        exact ⟨a, ha, hyz.trans hza⟩
    · exact hupd _ setRunning (fun a => rfl) y h

theorem foldl_ids_absent {evId : Nat} {args : Args} {thrw : Nat → Bool} {i : Nat} :
    ∀ (l : List Execution) (s : FanState),
      (∀ y ∈ s.executions, y.executionId ≠ i) →
      ∀ y ∈ (l.foldl (executeStep evId args thrw) s).executions, y.executionId ≠ i := by
  intro l
  induction l with
  | nil => intro s hs y hy; exact hs y hy
  | cons x l ih =>
    intro s hs y hy
    refine ih _ ?_ y hy
    intro z hz
    obtain ⟨a, ha, hza⟩ := executeStep_ids_sub hz
    rw [hza]
    exact hs a ha

/-- A dropped trigger (guard taken) changes nothing but the timer
list. -/
theorem executeStep_guard_true {evId : Nat} {args : Args} {thrw : Nat → Bool}
    {s : FanState} {e : Execution}
    (hg : (e.state.isExecuting && e.parameters.onlyOneExecutionAtATime) = true) :
    (executeStep evId args thrw s e).executions = s.executions ∧
    (executeStep evId args thrw s e).pending = s.pending ∧
    (executeStep evId args thrw s e).log = s.log := by
  unfold executeStep
  rw [hg]
  exact ⟨rfl, rfl, rfl⟩

/-- A synchronously raising run of `e` itself, without
`removeAfterExecute`: afterwards the array holds the finished copy of
`e`. -/
theorem executeStep_self_thrw_keep {evId : Nat} {args : Args} {thrw : Nat → Bool}
    {s : FanState} {e : Execution}
    (hg : (e.state.isExecuting && e.parameters.onlyOneExecutionAtATime) = false)
    (ht : thrw e.executionId = true) (hr : e.parameters.removeAfterExecute = false)
    (hv : e ∈ s.executions) :
    setFinished (setRunning e) ∈ (executeStep evId args thrw s e).executions := by
  have h1 : setRunning e ∈ updateExecution s.executions e.executionId setRunning := by
    unfold updateExecution
    refine List.mem_map.mpr ⟨e, hv, ?_⟩
    simp
  have h2 : setFinished (setRunning e) ∈
      updateExecution (updateExecution s.executions e.executionId setRunning)
        e.executionId setFinished := by
    unfold updateExecution
    refine List.mem_map.mpr ⟨setRunning e, ?_, ?_⟩
    · unfold updateExecution at h1
      exact h1
    · simp [setRunning_executionId]
  unfold executeStep
  simp only [hg, Bool.false_eq_true, if_false, ht, hr, if_true]
  exact h2

/-- A synchronously raising run of `e` itself, with `removeAfterExecute`:
afterwards no execution with `e`'s id remains in the array. -/
theorem executeStep_self_thrw_remove {evId : Nat} {args : Args} {thrw : Nat → Bool}
    {s : FanState} {e : Execution}
    (hg : (e.state.isExecuting && e.parameters.onlyOneExecutionAtATime) = false)
    (ht : thrw e.executionId = true) (hr : e.parameters.removeAfterExecute = true) :
    ∀ y ∈ (executeStep evId args thrw s e).executions, y.executionId ≠ e.executionId := by
  intro y hy
  unfold executeStep at hy
  simp only [hg, Bool.false_eq_true, if_false, ht, hr, if_true] at hy
  exact bne_iff_ne.mp (List.mem_filter.mp hy).2

/-- Splitting a duplicate-free snapshot at a member: everything on
either side carries a different id. -/
theorem exists_split_of_nodup_ids (l : List Execution) (e : Execution)
    (he : e ∈ l) (hnd : (l.map (fun x => x.executionId)).Nodup) :
    ∃ l₁ l₂, l = l₁ ++ e :: l₂ ∧ (∀ x ∈ l₁, x.executionId ≠ e.executionId) ∧
      (∀ x ∈ l₂, x.executionId ≠ e.executionId) := by
  obtain ⟨l₁, l₂, rfl⟩ := List.append_of_mem he
  refine ⟨l₁, l₂, rfl, ?_, ?_⟩
  · rw [List.map_append] at hnd
    have hdisj := (List.nodup_append.mp hnd).2.2
    intro x hx hxe
    have hx1 : x.executionId ∈ l₁.map (fun x => x.executionId) :=
      List.mem_map_of_mem _ hx
    have hx2 : x.executionId ∈ (e :: l₂).map (fun x => x.executionId) := by
      rw [hxe]; exact List.mem_map_of_mem _ (List.mem_cons_self e l₂)
    exact hdisj hx1 hx2
  · rw [List.map_append, List.map_cons] at hnd
    have hcons := ((List.nodup_append.mp hnd).2.1)
    have hnotin := (List.nodup_cons.mp hcons).1
    intro x hx hxe
    exact hnotin (hxe ▸ List.mem_map_of_mem _ hx)

/-! Shape lemmas for `emitEvent`. -/

theorem eventExecute_log (ev : Event) (args : Args) (thrw : Nat → Bool)
    (timers : List Timer) (pending : List PendingFinish) (log : List LogEntry) :
    (eventExecute ev args thrw timers pending log).log = log ++ fanOutLog ev args := by
  unfold eventExecute fanOutLog
  rw [foldl_log]

theorem emitEvent_log_found (args : Args) (thrw : Nat → Bool) {w : World}
    {name : String} {ev : Event}
    (h : w.emitter.events.find? (fun e => e.eventName == name) = some ev) :
    (emitEvent w name args thrw).log = w.log ++ fanOutLog ev args := by
  simp only [emitEvent, h]
  exact eventExecute_log ev args thrw w.timers w.pending w.log

theorem emitEvent_timers_found (args : Args) (thrw : Nat → Bool) {w : World}
    {name : String} {ev : Event}
    (h : w.emitter.events.find? (fun e => e.eventName == name) = some ev) :
    (emitEvent w name args thrw).timers =
      (eventExecute ev args thrw w.timers w.pending w.log).timers := by
  simp only [emitEvent, h]

theorem emitEvent_events_found (args : Args) (thrw : Nat → Bool) {w : World}
    {name : String} {ev : Event}
    (h : w.emitter.events.find? (fun e => e.eventName == name) = some ev) :
    (emitEvent w name args thrw).emitter.events =
      w.emitter.events.map (fun e =>
        if e.eventId == ev.eventId then
          {ev with executions := (eventExecute ev args thrw w.timers w.pending w.log).executions}
        else e) := by
  simp only [emitEvent, h]

/-! Claim theorems. -/

/-- C1: on every emit of an existing event, every execution registered
on the event at fan-out start (with no run currently suppressed by the
reentrancy guard) is triggered exactly once, in registration order,
with the emitted arguments.  The `thrw` oracle ranges over all
behaviours of the callbacks, so this covers an execution removing
itself during the fan-out (a synchronously raising one-shot callback,
the only removal that can land inside the synchronous fan-out loop):
`forEach` iterates the snapshot array that removal replaces, so nothing
is skipped or re-visited. -/
theorem C1_fanout_triggers_snapshot_in_order (w : World) (name : String)
    (args : Args) (thrw : Nat → Bool) (ev : Event)
    (hfind : w.emitter.events.find? (fun e => e.eventName == name) = some ev)
    (hguard : ∀ e ∈ ev.executions,
      (e.state.isExecuting && e.parameters.onlyOneExecutionAtATime) = false) :
    (emitEvent w name args thrw).log =
      w.log ++ ev.executions.map (fun e => LogEntry.invoke ev.eventId e.executionId args) := by
  rw [emitEvent_log_found args thrw hfind]
  unfold fanOutLog
  have : ev.executions.filter
      (fun e => !(e.state.isExecuting && e.parameters.onlyOneExecutionAtATime))
      = ev.executions := by
    rw [List.filter_eq_self]
    intro a ha
    rw [hguard a ha]
    rfl
  rw [this]

/-- Witness for C1: two subscriptions on `"a"`, the first a one-shot
whose callback raises synchronously (so it removes itself during the
fan-out); both are invoked, in registration order, with the emitted
arguments. -/
theorem C1_witness :
    (emitEvent wTwoSubs "a" [3] (fun i => i == 0)).log =
      wTwoSubs.log ++ evTwoSubs.executions.map
        (fun e => LogEntry.invoke evTwoSubs.eventId e.executionId [3]) :=
  C1_fanout_triggers_snapshot_in_order wTwoSubs "a" [3] (fun i => i == 0) evTwoSubs
    (by decide) (by decide)

theorem addExecution_returned_id (ev : Event) (p : Option AddEventParams)
    (timers : List Timer) (ntid : Nat) :
    (addExecution ev p timers ntid).2.2.2 = ev.executionCounter := by
  unfold addExecution
  by_cases h : (buildParams p).expirationEnabled = true <;> simp [h]

theorem addExecution_counter (ev : Event) (p : Option AddEventParams)
    (timers : List Timer) (ntid : Nat) :
    (addExecution ev p timers ntid).1.executionCounter = ev.executionCounter + 1 := by
  unfold addExecution
  by_cases h : (buildParams p).expirationEnabled = true <;> simp [h]

theorem addExecution_eventId (ev : Event) (p : Option AddEventParams)
    (timers : List Timer) (ntid : Nat) :
    (addExecution ev p timers ntid).1.eventId = ev.eventId := by
  unfold addExecution
  by_cases h : (buildParams p).expirationEnabled = true <;> simp [h]

theorem addExecution_eventName (ev : Event) (p : Option AddEventParams)
    (timers : List Timer) (ntid : Nat) :
    (addExecution ev p timers ntid).1.eventName = ev.eventName := by
  unfold addExecution
  by_cases h : (buildParams p).expirationEnabled = true <;> simp [h]

theorem addExecution_execIds (ev : Event) (p : Option AddEventParams)
    (timers : List Timer) (ntid : Nat) :
    (addExecution ev p timers ntid).1.executions.map (fun x => x.executionId)
      = ev.executions.map (fun x => x.executionId) ++ [ev.executionCounter] := by
  unfold addExecution
  by_cases h : (buildParams p).expirationEnabled = true <;> simp [h]

theorem addEvent_found_snd {w : World} {name : String} {ev : Event}
    (p : Option AddEventParams)
    (h : w.emitter.events.find? (fun e => e.eventName == name) = some ev) :
    (addEvent w name p).2 = (addExecution ev p w.timers w.nextTimerId).2.2.2 := by
  simp only [addEvent, h]

theorem addEvent_found_events {w : World} {name : String} {ev : Event}
    (p : Option AddEventParams)
    (h : w.emitter.events.find? (fun e => e.eventName == name) = some ev) :
    (addEvent w name p).1.emitter.events
      = w.emitter.events.map (fun e =>
          if e.eventId == ev.eventId then (addExecution ev p w.timers w.nextTimerId).1
          else e) := by
  simp only [addEvent, h]

theorem map_eventName_of_preserve (l : List Event) (g : Event → Event)
    (hg : ∀ a, (g a).eventName = a.eventName) :
    (l.map g).map (fun e => e.eventName) = l.map (fun e => e.eventName) := by
  induction l with
  | nil => rfl
  | cons a l ih => simp only [List.map_cons, hg, ih]

/-- Counterexample to C2 as stated: remove the expiring subscription
through the returned handle — the expiration timer is still pending,
and firing it afterwards still invokes `onExpire`. -/
theorem C2_counterexample :
    wExpireRemoved.emitter.events = [] ∧
    wExpireRemoved.timers = [⟨0, 0, 0⟩] ∧
    (fireTimer wExpireRemoved 0).log = [LogEntry.expire 0 0] := by decide

/-- C2 amended: the registry-level removal paths — the returned handle's
`remove()` / `removeExecution`, `removeEvent` and `removeAllEvents` —
do not cancel pending expiration timers at all: they leave the timer
queue (and the parked continuations) untouched, so a pending `onExpire`
still fires afterwards (see the counterexample).  Only
`Execution.cancel` (the expiration path itself and the
`removeAfterExecute` path) clears the timer. -/
theorem C2_amended_removal_keeps_timers (w : World) (name : String) (i : Nat) :
    (removeExecution w name i).timers = w.timers ∧
    (removeExecution w name i).pending = w.pending ∧
    (removeEvent w name).timers = w.timers ∧
    (removeAllEvents w).timers = w.timers := by
  refine ⟨?_, ?_, rfl, rfl⟩ <;>
    · unfold removeExecution
      cases h : w.emitter.events.find? (fun e => e.eventName == name) with
      | none => rfl
      | some ev =>
        dsimp only
        split <;> rfl

/-- Counterexample to C3 as stated: run the one-shot subscription of
`wOneShot` to completion — the execution removes itself from the event
object only, and the now-empty event stays in the registry. -/
theorem C3_counterexample :
    wOneShotDone.emitter.events = [evOneShotDone] ∧
    evOneShotDone.executions = [] := by decide

/-- C3 amended: only the registry-level `removeExecution` path removes
an event that drops to zero executions.  The expiration path and the
`removeAfterExecute` path go through `Execution.cancel`, which detaches
the execution from the event object only — they never remove any event
from the registry (the registry's event-name list is unchanged), so an
event emptied on those paths stays behind (see the counterexample). -/
theorem C3_amended_empty_event_only_removed_by_removeExecution :
    (∀ w tid, (fireTimer w tid).emitter.events.map (fun e => e.eventName) =
        w.emitter.events.map (fun e => e.eventName)) ∧
    (∀ w pf o, (finishRun w pf o).emitter.events.map (fun e => e.eventName) =
        w.emitter.events.map (fun e => e.eventName)) ∧
    (∀ w name i ev,
      w.emitter.events.find? (fun e => e.eventName == name) = some ev →
      (ev.executions.filter (fun x => x.executionId != i)).length = 0 →
      ∀ e ∈ (removeExecution w name i).emitter.events, e.eventName ≠ name) := by
  refine ⟨?_, ?_, ?_⟩
  · intro w tid
    unfold fireTimer
    cases h : w.timers.find? (fun t => t.timerId == tid) with
    | none => rfl
    | some t =>
      dsimp only
      apply map_eventName_of_preserve
      intro a
      dsimp only
      split <;> rfl
  · intro w pf o
    have hcore : (finishCore w pf).emitter.events.map (fun e => e.eventName) =
        w.emitter.events.map (fun e => e.eventName) := by
      unfold finishCore
      split
      · dsimp only
        split
        · dsimp only
          rw [map_eventName_of_preserve, map_eventName_of_preserve]
          · intro a; dsimp only; split <;> rfl
          · intro a; dsimp only; split <;> rfl
        · dsimp only
          rw [map_eventName_of_preserve]
          intro a; dsimp only; split <;> rfl
      · rfl
    cases o <;> exact hcore
  · intro w name i ev hfind hlen e he
    unfold removeExecution at he
    rw [hfind] at he
    dsimp only at he
    rw [if_pos (by simpa using hlen)] at he
    have := (List.mem_filter.mp he).2
    exact bne_iff_ne.mp this

/-- Witness for the amended C3 (registry path): removing the only
execution of `"a"` in `wExpire` through the registry also removes the
event itself. -/
theorem C3_amended_witness :
    ∀ e ∈ (removeExecution wExpire "a" 0).emitter.events, e.eventName ≠ "a" :=
  C3_amended_empty_event_only_removed_by_removeExecution.2.2 wExpire "a" 0 evExpire
    (by decide) (by decide)

/-- Counterexample to C4 as stated: subscribe to `"a"`, remove through
the returned handle (the event object drops to zero executions and is
destroyed), subscribe to `"a"` again — both subscriptions receive
execution id 0, so the ids of this churn sequence are not pairwise
distinct. -/
theorem C4_counterexample :
    churnFirst.2 = 0 ∧ wChurnRemoved.emitter.events = [] ∧ churnSecond.2 = 0 := by
  decide

/-- C4 amended: execution ids are distinct only within the lifetime of a
single event object: while the event persists, `addEvent` hands out the
strictly increasing per-event counter, so the new id differs from every
execution currently registered there.  Once the event object is
destroyed and recreated, the counter restarts at 0 and ids are reused
(see the counterexample). -/
theorem C4_amended_ids_fresh_within_event_life (w : World) (name : String)
    (p : Option AddEventParams) (ev : Event)
    (hfind : w.emitter.events.find? (fun e => e.eventName == name) = some ev)
    (hbound : ∀ e ∈ ev.executions, e.executionId < ev.executionCounter) :
    (addEvent w name p).2 = ev.executionCounter ∧
    (∀ e ∈ ev.executions, e.executionId ≠ (addEvent w name p).2) ∧
    ∃ ev' ∈ (addEvent w name p).1.emitter.events,
      ev'.eventId = ev.eventId ∧ ev'.executionCounter = ev.executionCounter + 1 ∧
      ev'.executions.map (fun x => x.executionId)
        = ev.executions.map (fun x => x.executionId) ++ [ev.executionCounter] := by
  have hid : (addEvent w name p).2 = ev.executionCounter := by
    rw [addEvent_found_snd p hfind, addExecution_returned_id]
  refine ⟨hid, ?_, ?_⟩
  · intro e he
    rw [hid]
    exact Nat.ne_of_lt (hbound e he)
  · refine ⟨(addExecution ev p w.timers w.nextTimerId).1, ?_, ?_, ?_, ?_⟩
    · rw [addEvent_found_events p hfind]
      refine List.mem_map.mpr ⟨ev, List.mem_of_find?_eq_some hfind, ?_⟩
      simp
    · exact addExecution_eventId ev p w.timers w.nextTimerId
    · exact addExecution_counter ev p w.timers w.nextTimerId
    · exact addExecution_execIds ev p w.timers w.nextTimerId

/-- A member of a duplicate-free execution list survives its own
dropped trigger and everything else the fan-out does: the fan-out of a
snapshot containing `e`, with `e` mid-run and guarded, leaves `e`'s
object untouched in the array. -/
theorem eventExecute_guarded_member_untouched {ev : Event} {args : Args}
    {thrw : Nat → Bool} {e : Execution}
    (timers : List Timer) (pending : List PendingFinish) (log : List LogEntry)
    (he : e ∈ ev.executions)
    (hnd : (ev.executions.map (fun x => x.executionId)).Nodup)
    (hrun : e.state.isExecuting = true)
    (honly : e.parameters.onlyOneExecutionAtATime = true) :
    e ∈ (eventExecute ev args thrw timers pending log).executions := by
  obtain ⟨l₁, l₂, hsplit, h₁, h₂⟩ := exists_split_of_nodup_ids ev.executions e he hnd
  unfold eventExecute
  rw [hsplit, List.foldl_append, List.foldl_cons]
  have hstep1 : e ∈ (l₁.foldl (executeStep ev.eventId args thrw)
      ⟨l₁ ++ e :: l₂, timers, pending, log⟩).executions :=
    foldl_mem_preserve l₁ _ (fun x hx => (h₁ x hx).symm)
      (List.mem_append_right _ (List.mem_cons_self e l₂))
  have hguard : (e.state.isExecuting && e.parameters.onlyOneExecutionAtATime) = true := by
    rw [hrun, honly]; rfl
  have hstep2 := (@executeStep_guard_true ev.eventId args thrw
    (l₁.foldl (executeStep ev.eventId args thrw)
      ⟨l₁ ++ e :: l₂, timers, pending, log⟩) e hguard).1
  refine foldl_mem_preserve l₂ _ (fun x hx => (h₂ x hx).symm) ?_
  rw [hstep2]
  exact hstep1

/-- C5: a trigger that arrives for an `onlyOneInstance` execution while
its previous run is still in flight is dropped: the callback is not
invoked (no `invoke` entry for it in the fan-out's log contribution),
the execution object is unchanged and still registered, and no error is
raised (`emitEvent` is total).  A trigger that arrives when the
execution is no longer running does invoke the callback. -/
theorem C5_onlyOneAtATime_guard :
    (∀ (w : World) (name : String) (args : Args) (thrw : Nat → Bool) (ev : Event)
       (e : Execution),
      w.emitter.events.find? (fun x => x.eventName == name) = some ev →
      e ∈ ev.executions →
      (ev.executions.map (fun x => x.executionId)).Nodup →
      e.state.isExecuting = true →
      e.parameters.onlyOneExecutionAtATime = true →
      ((emitEvent w name args thrw).log = w.log ++ fanOutLog ev args ∧
       LogEntry.invoke ev.eventId e.executionId args ∉ fanOutLog ev args ∧
       ∃ ev' ∈ (emitEvent w name args thrw).emitter.events,
         ev'.eventId = ev.eventId ∧ e ∈ ev'.executions)) ∧
    (∀ (w : World) (name : String) (args : Args) (thrw : Nat → Bool) (ev : Event)
       (e : Execution),
      w.emitter.events.find? (fun x => x.eventName == name) = some ev →
      e ∈ ev.executions →
      e.state.isExecuting = false →
      LogEntry.invoke ev.eventId e.executionId args ∈ (emitEvent w name args thrw).log) := by
  constructor
  · intro w name args thrw ev e hfind he hnd hrun honly
    refine ⟨emitEvent_log_found args thrw hfind, ?_, ?_⟩
    · intro hmem
      unfold fanOutLog at hmem
      obtain ⟨x, hx, hxe⟩ := List.mem_map.mp hmem
      have hxid : x.executionId = e.executionId := by
        injection hxe
      have hxl := (List.mem_filter.mp hx).1
      have hxpass := (List.mem_filter.mp hx).2
      have hxeq : x = e := List.inj_on_of_nodup_map hnd hxl he hxid
      rw [hxeq, hrun, honly] at hxpass
      simp at hxpass
    · rw [emitEvent_events_found args thrw hfind]
      refine ⟨{ev with executions :=
          (eventExecute ev args thrw w.timers w.pending w.log).executions}, ?_, rfl, ?_⟩
      · refine List.mem_map.mpr ⟨ev, List.mem_of_find?_eq_some hfind, ?_⟩
        simp
      · exact eventExecute_guarded_member_untouched w.timers w.pending w.log he hnd
          hrun honly
  · intro w name args thrw ev e hfind he hrun
    rw [emitEvent_log_found args thrw hfind]
    refine List.mem_append_right _ ?_
    unfold fanOutLog
    refine List.mem_map_of_mem _ (List.mem_filter.mpr ⟨he, ?_⟩)
    rw [hrun]
    rfl

/-- Witness for C5: in `wGuardRunning` the guarded execution is mid-run
and a second trigger is dropped without touching it; in `wGuardIdle`
(after the run completed) a further trigger invokes the callback. -/
theorem C5_witness :
    ((emitEvent wGuardRunning "a" [2] (fun _ => false)).log =
        wGuardRunning.log ++ fanOutLog evGuardRunning [2] ∧
     LogEntry.invoke evGuardRunning.eventId eGuardRunning.executionId [2]
        ∉ fanOutLog evGuardRunning [2] ∧
     ∃ ev' ∈ (emitEvent wGuardRunning "a" [2] (fun _ => false)).emitter.events,
       ev'.eventId = evGuardRunning.eventId ∧ eGuardRunning ∈ ev'.executions) ∧
    LogEntry.invoke evGuardIdle.eventId eGuardIdle.executionId [2]
      ∈ (emitEvent wGuardIdle "a" [2] (fun _ => false)).log :=
  ⟨C5_onlyOneAtATime_guard.1 wGuardRunning "a" [2] (fun _ => false) evGuardRunning
      eGuardRunning (by decide) (by decide) (by decide) (by decide) (by decide),
   C5_onlyOneAtATime_guard.2 wGuardIdle "a" [2] (fun _ => false) evGuardIdle
      eGuardIdle (by decide) (by decide) (by decide)⟩

/-- Witness for the amended C4: adding a further subscription to the
live event of `wTwoSubs` hands out the fresh id 2, distinct from the
ids 0 and 1 already present. -/
theorem C4_amended_witness :
    (addEvent wTwoSubs "a" none).2 = evTwoSubs.executionCounter ∧
    (∀ e ∈ evTwoSubs.executions, e.executionId ≠ (addEvent wTwoSubs "a" none).2) ∧
    ∃ ev' ∈ (addEvent wTwoSubs "a" none).1.emitter.events,
      ev'.eventId = evTwoSubs.eventId ∧
      ev'.executionCounter = evTwoSubs.executionCounter + 1 ∧
      ev'.executions.map (fun x => x.executionId)
        = evTwoSubs.executions.map (fun x => x.executionId)
            ++ [evTwoSubs.executionCounter] :=
  C4_amended_ids_fresh_within_event_life wTwoSubs "a" none evTwoSubs
    (by decide) (by decide)

/-- An element of the written-back event list whose id matches the
replaced event's id is the replacement itself. -/
theorem mem_map_replace_eq {l : List Event} {evId : Nat} {newEv b : Event}
    (hb : b ∈ l.map (fun a => if a.eventId == evId then newEv else a))
    (hid : b.eventId = evId) : b = newEv := by
  obtain ⟨a, ha, hab⟩ := List.mem_map.mp hb
  by_cases hc : (a.eventId == evId) = true
  · rw [if_pos hc] at hab
    exact hab.symm
  · rw [if_neg hc] at hab
    rw [← hab] at hid
    exact absurd (beq_iff_eq.mpr hid) hc

/-- After a fan-out in which `e`'s callback raised synchronously and
`e` is a one-shot, no execution with `e`'s id remains in the array. -/
theorem eventExecute_self_thrw_remove {ev : Event} {args : Args} {thrw : Nat → Bool}
    {e : Execution} (timers : List Timer) (pending : List PendingFinish)
    (log : List LogEntry) (he : e ∈ ev.executions)
    (hg : (e.state.isExecuting && e.parameters.onlyOneExecutionAtATime) = false)
    (ht : thrw e.executionId = true) (hr : e.parameters.removeAfterExecute = true) :
    ∀ y ∈ (eventExecute ev args thrw timers pending log).executions,
      y.executionId ≠ e.executionId := by
  obtain ⟨l₁, l₂, hsplit⟩ := List.append_of_mem he
  unfold eventExecute
  rw [hsplit, List.foldl_append, List.foldl_cons]
  exact foldl_ids_absent l₂ _ (executeStep_self_thrw_remove hg ht hr)

/-- After a fan-out in which `e`'s callback raised synchronously and `e`
is not a one-shot, the array holds the finished copy of `e`
(`isExecuting` cleared, `hasExecuted` set). -/
theorem eventExecute_self_thrw_keep {ev : Event} {args : Args} {thrw : Nat → Bool}
    {e : Execution} (timers : List Timer) (pending : List PendingFinish)
    (log : List LogEntry) (he : e ∈ ev.executions)
    (hnd : (ev.executions.map (fun x => x.executionId)).Nodup)
    (hg : (e.state.isExecuting && e.parameters.onlyOneExecutionAtATime) = false)
    (ht : thrw e.executionId = true) (hr : e.parameters.removeAfterExecute = false) :
    setFinished (setRunning e) ∈ (eventExecute ev args thrw timers pending log).executions := by
  obtain ⟨l₁, l₂, hsplit, h₁, h₂⟩ := exists_split_of_nodup_ids ev.executions e he hnd
  unfold eventExecute
  rw [hsplit, List.foldl_append, List.foldl_cons]
  have h1 : e ∈ (l₁.foldl (executeStep ev.eventId args thrw)
      ⟨l₁ ++ e :: l₂, timers, pending, log⟩).executions :=
    foldl_mem_preserve l₁ _ (fun x hx => (h₁ x hx).symm)
      (List.mem_append_right _ (List.mem_cons_self e l₂))
  refine foldl_mem_preserve l₂ _ ?_ (executeStep_self_thrw_keep hg ht hr h1)
  intro x hx
  rw [setFinished_executionId, setRunning_executionId]
  exact (h₂ x hx).symm

/-- C6: a raising callback is caught at the `Execution` boundary and
discarded.  First: a parked continuation behaves identically whether the
callback's promise resolved or rejected (the `catch (ex) { }` discards
the error).  Second: when a callback raises synchronously during the
fan-out, every other execution of the snapshot is still invoked (the
full snapshot log is produced, and `emitEvent` is total, so nothing
reaches the emitter's caller), and the failing execution's post-run
lifecycle still applies: a one-shot is removed, otherwise its finished
copy (`hasExecuted` set) stays registered. -/
theorem C6_callback_errors_isolated :
    (∀ (w : World) (pf : PendingFinish),
      finishRun w pf Outcome.error = finishRun w pf Outcome.ok) ∧
    (∀ (w : World) (name : String) (args : Args) (thrw : Nat → Bool) (ev : Event)
       (e : Execution),
      w.emitter.events.find? (fun x => x.eventName == name) = some ev →
      e ∈ ev.executions →
      (ev.executions.map (fun x => x.executionId)).Nodup →
      (∀ x ∈ ev.executions,
        (x.state.isExecuting && x.parameters.onlyOneExecutionAtATime) = false) →
      thrw e.executionId = true →
      ((emitEvent w name args thrw).log =
        w.log ++ ev.executions.map (fun x => LogEntry.invoke ev.eventId x.executionId args) ∧
       (e.parameters.removeAfterExecute = true →
        ∀ ev' ∈ (emitEvent w name args thrw).emitter.events, ev'.eventId = ev.eventId →
          ∀ x ∈ ev'.executions, x.executionId ≠ e.executionId) ∧
       (e.parameters.removeAfterExecute = false →
        ∃ ev' ∈ (emitEvent w name args thrw).emitter.events, ev'.eventId = ev.eventId ∧
          setFinished (setRunning e) ∈ ev'.executions))) := by
  constructor
  · intro w pf
    rfl
  · intro w name args thrw ev e hfind he hnd hguard ht
    refine ⟨?_, ?_, ?_⟩
    · rw [emitEvent_log_found args thrw hfind]
      unfold fanOutLog
      rw [List.filter_eq_self.mpr (fun a ha => by rw [hguard a ha]; rfl)]
    · intro hr ev' hev' hid x hx
      rw [emitEvent_events_found args thrw hfind] at hev'
      have := mem_map_replace_eq hev' hid
      rw [this] at hx
      exact eventExecute_self_thrw_remove w.timers w.pending w.log he
        (hguard e he) ht hr x hx
    · intro hr
      rw [emitEvent_events_found args thrw hfind]
      refine ⟨{ev with executions :=
          (eventExecute ev args thrw w.timers w.pending w.log).executions}, ?_, rfl, ?_⟩
      · refine List.mem_map.mpr ⟨ev, List.mem_of_find?_eq_some hfind, ?_⟩
        simp
      · exact eventExecute_self_thrw_keep w.timers w.pending w.log he hnd
          (hguard e he) ht hr

/-- Witness for C6: in `wTwoSubs` the first (one-shot) callback raises
synchronously; the snapshot log still covers both executions and the
raiser is removed; and a parked continuation of `wGuardRunning` behaves
identically under resolution and rejection. -/
theorem C6_witness :
    finishRun wGuardRunning ⟨0, 0, false, none⟩ Outcome.error
      = finishRun wGuardRunning ⟨0, 0, false, none⟩ Outcome.ok ∧
    ((emitEvent wTwoSubs "a" [3] (fun i => i == 0)).log =
      wTwoSubs.log ++ evTwoSubs.executions.map
        (fun x => LogEntry.invoke evTwoSubs.eventId x.executionId [3]) ∧
     (eTwoSubsHead.parameters.removeAfterExecute = true →
      ∀ ev' ∈ (emitEvent wTwoSubs "a" [3] (fun i => i == 0)).emitter.events,
        ev'.eventId = evTwoSubs.eventId →
        ∀ x ∈ ev'.executions, x.executionId ≠ eTwoSubsHead.executionId) ∧
     (eTwoSubsHead.parameters.removeAfterExecute = false →
      ∃ ev' ∈ (emitEvent wTwoSubs "a" [3] (fun i => i == 0)).emitter.events,
        ev'.eventId = evTwoSubs.eventId ∧
        setFinished (setRunning eTwoSubsHead) ∈ ev'.executions)) :=
  ⟨C6_callback_errors_isolated.1 wGuardRunning ⟨0, 0, false, none⟩,
   C6_callback_errors_isolated.2 wTwoSubs "a" [3] (fun i => i == 0) evTwoSubs
     eTwoSubsHead (by decide) (by decide) (by decide) (by decide) (by decide)⟩

theorem addEvent_notfound_snd {w : World} {name : String} (p : Option AddEventParams)
    (h : w.emitter.events.find? (fun e => e.eventName == name) = none) :
    (addEvent w name p).2 =
      (addExecution {eventName := name, eventId := w.emitter.eventIds} p
        w.timers w.nextTimerId).2.2.2 := by
  simp only [addEvent, h]

theorem addEvent_notfound_events {w : World} {name : String} (p : Option AddEventParams)
    (h : w.emitter.events.find? (fun e => e.eventName == name) = none) :
    (addEvent w name p).1.emitter.events =
      w.emitter.events ++
        [(addExecution {eventName := name, eventId := w.emitter.eventIds} p
          w.timers w.nextTimerId).1] := by
  simp only [addEvent, h]

theorem addExecution_new_mem (ev : Event) (p : Option AddEventParams)
    (timers : List Timer) (ntid : Nat) :
    ∃ x ∈ (addExecution ev p timers ntid).1.executions,
      x.executionId = ev.executionCounter ∧ x.parameters = buildParams p := by
  simp only [addExecution]
  by_cases h : (buildParams p).expirationEnabled = true
  · rw [if_pos h]
    exact ⟨_, List.mem_append_right _ (List.mem_cons_self _ _), rfl, rfl⟩
  · rw [if_neg h]
    exact ⟨_, List.mem_append_right _ (List.mem_cons_self _ _), rfl, rfl⟩

/-- C7: one-shot semantics.  First: right after subscribing, the created
execution (carrying the requested parameters, in particular
`removeAfterExecute`) is present in its event under the returned id.
Second: once a one-shot's parked continuation runs — for a resolved and
for a rejected callback alike — no execution with its id is left in its
event object.  Third: a subsequent emit of the event invokes only
executions still registered, so the removed one-shot is not invoked
again. -/
theorem C7_one_shot_removed_after_completed_run :
    (∀ (w : World) (name : String) (p : Option AddEventParams),
      ∃ ev' ∈ (addEvent w name p).1.emitter.events, ev'.eventName = name ∧
        ∃ x ∈ ev'.executions, x.executionId = (addEvent w name p).2 ∧
          x.parameters = buildParams p) ∧
    (∀ (w : World) (pf : PendingFinish) (o : Outcome),
      pf ∈ w.pending → pf.removeAfterExecute = true →
      ∀ ev' ∈ (finishRun w pf o).emitter.events, ev'.eventId = pf.eventId →
        ∀ x ∈ ev'.executions, x.executionId ≠ pf.executionId) ∧
    (∀ (w : World) (name : String) (args : Args) (thrw : Nat → Bool) (ev : Event)
       (i : Nat),
      w.emitter.events.find? (fun x => x.eventName == name) = some ev →
      (∀ x ∈ ev.executions, x.executionId ≠ i) →
      ((emitEvent w name args thrw).log = w.log ++ fanOutLog ev args ∧
       LogEntry.invoke ev.eventId i args ∉ fanOutLog ev args)) := by
  refine ⟨?_, ?_, ?_⟩
  · intro w name p
    cases hfind : w.emitter.events.find? (fun e => e.eventName == name) with
    | some ev =>
      refine ⟨(addExecution ev p w.timers w.nextTimerId).1, ?_, ?_, ?_⟩
      · rw [addEvent_found_events p hfind]
        refine List.mem_map.mpr ⟨ev, List.mem_of_find?_eq_some hfind, ?_⟩
        simp
      · rw [addExecution_eventName]
        have hpred := List.find?_some hfind
        exact beq_iff_eq.mp hpred
      · obtain ⟨x, hx, hid, hp⟩ := addExecution_new_mem ev p w.timers w.nextTimerId
        refine ⟨x, hx, ?_, hp⟩
        rw [addEvent_found_snd p hfind, addExecution_returned_id]
        exact hid
    | none =>
      refine ⟨(addExecution {eventName := name, eventId := w.emitter.eventIds} p
          w.timers w.nextTimerId).1, ?_, ?_, ?_⟩
      · rw [addEvent_notfound_events p hfind]
        exact List.mem_append_right _ (List.mem_cons_self _ _)
      · rw [addExecution_eventName]
      · obtain ⟨x, hx, hid, hp⟩ := addExecution_new_mem
          {eventName := name, eventId := w.emitter.eventIds} p w.timers w.nextTimerId
        refine ⟨x, hx, ?_, hp⟩
        rw [addEvent_notfound_snd p hfind, addExecution_returned_id]
        exact hid
  · intro w pf o hpend hr ev' hev' hid x hx
    have hcore : (finishRun w pf o) = finishCore w pf := by
      cases o <;> rfl
    rw [hcore] at hev'
    unfold finishCore at hev'
    rw [if_pos hpend, if_pos hr] at hev'
    dsimp only at hev'
    obtain ⟨b, hb, hbev⟩ := List.mem_map.mp hev'
    by_cases hc : (b.eventId == pf.eventId) = true
    · rw [if_pos hc] at hbev
      rw [← hbev] at hx
      exact bne_iff_ne.mp (List.mem_filter.mp hx).2
    · rw [if_neg hc] at hbev
      rw [← hbev] at hid
      exact absurd (beq_iff_eq.mpr hid) hc
  · intro w name args thrw ev i hfind habsent
    refine ⟨emitEvent_log_found args thrw hfind, ?_⟩
    intro hmem
    unfold fanOutLog at hmem
    obtain ⟨x, hx, hxe⟩ := List.mem_map.mp hmem
    have hxid : x.executionId = i := by injection hxe
    exact habsent x (List.mem_filter.mp hx).1 hxid

/-- Witness for C7: the one-shot of `wOneShot` is present with id 0
right after subscribing, absent after its completed run, and a later
emit of `"a"` in `wOneShotDone` does not invoke it. -/
theorem C7_witness :
    (∃ ev' ∈ (addEvent ({} : World) "a"
        (some {removeAfterExecute := some true})).1.emitter.events,
      ev'.eventName = "a" ∧
      ∃ x ∈ ev'.executions,
        x.executionId = (addEvent ({} : World) "a"
          (some {removeAfterExecute := some true})).2 ∧
        x.parameters = buildParams (some {removeAfterExecute := some true})) ∧
    (∀ ev' ∈ (finishRun wOneShotEmitted ⟨0, 0, true, none⟩ Outcome.ok).emitter.events,
      ev'.eventId = (0 : Nat) → ∀ x ∈ ev'.executions, x.executionId ≠ (0 : Nat)) ∧
    ((emitEvent wOneShotDone "a" [5] (fun _ => false)).log =
        wOneShotDone.log ++ fanOutLog evOneShotDone [5] ∧
     LogEntry.invoke evOneShotDone.eventId 0 [5] ∉ fanOutLog evOneShotDone [5]) :=
  ⟨C7_one_shot_removed_after_completed_run.1 {} "a"
      (some {removeAfterExecute := some true}),
   C7_one_shot_removed_after_completed_run.2.1 wOneShotEmitted ⟨0, 0, true, none⟩
      Outcome.ok (by decide) (by decide),
   C7_one_shot_removed_after_completed_run.2.2 wOneShotDone "a" [5] (fun _ => false)
      evOneShotDone 0 (by decide) (by decide)⟩

theorem find?_clearTimeout_self (ts : List Timer) (tid : Nat) :
    (clearTimeout ts tid).find? (fun x => x.timerId == tid) = none := by
  apply List.find?_eq_none.mpr
  intro t ht
  simp [mem_clearTimeout_ne ht]

theorem fireTimer_none {w : World} {tid : Nat}
    (h : w.timers.find? (fun x => x.timerId == tid) = none) : fireTimer w tid = w := by
  simp only [fireTimer, h]

/-- C8: when a still-pending expiration timer fires, the `onExpire`
callback of its execution is invoked (first, then the execution is
detached), exactly one `expire` entry is appended, afterwards no
execution with that id remains in the owning event, and the one-shot
`setTimeout` cannot fire again (a second fire is a no-op). -/
theorem C8_expiration_fires_once_and_detaches (w : World) (tid : Nat) (t : Timer)
    (hfind : w.timers.find? (fun x => x.timerId == tid) = some t) :
    (fireTimer w tid).log = w.log ++ [LogEntry.expire t.eventId t.executionId] ∧
    (∀ ev' ∈ (fireTimer w tid).emitter.events, ev'.eventId = t.eventId →
       ∀ x ∈ ev'.executions, x.executionId ≠ t.executionId) ∧
    fireTimer (fireTimer w tid) tid = fireTimer w tid := by
  refine ⟨?_, ?_, ?_⟩
  · simp only [fireTimer, hfind]
  · intro ev' hev' hid x hx
    simp only [fireTimer, hfind] at hev'
    obtain ⟨b, hb, hbev⟩ := List.mem_map.mp hev'
    by_cases hc : (b.eventId == t.eventId) = true
    · rw [if_pos hc] at hbev
      rw [← hbev] at hx
      exact bne_iff_ne.mp (List.mem_filter.mp hx).2
    · rw [if_neg hc] at hbev
      rw [← hbev] at hid
      exact absurd (beq_iff_eq.mpr hid) hc
  · refine fireTimer_none ?_
    have htimers : (fireTimer w tid).timers
        = clearTimeout (clearTimeout w.timers tid) tid := by
      simp only [fireTimer, hfind]
    rw [htimers]
    exact find?_clearTimeout_self _ tid

/-- Witness for C8: firing the pending timer of `wExpire` logs the
`onExpire` invocation, detaches execution 0 from event 0, and firing
again is a no-op. -/
theorem C8_witness :
    (fireTimer wExpire 0).log = wExpire.log ++ [LogEntry.expire 0 0] ∧
    (∀ ev' ∈ (fireTimer wExpire 0).emitter.events, ev'.eventId = (0 : Nat) →
       ∀ x ∈ ev'.executions, x.executionId ≠ (0 : Nat)) ∧
    fireTimer (fireTimer wExpire 0) 0 = fireTimer wExpire 0 :=
  C8_expiration_fires_once_and_detaches wExpire 0 ⟨0, 0, 0⟩ (by decide)

/-- C9: a trigger that reaches an execution whose expiration timer was
armed disarms it — `stopAutomaticCancellation` runs before the
`onlyOneExecutionAtATime` guard, so this covers dropped triggers too —
and once disarmed the timer cannot fire, so `onExpire` is not invoked
afterwards. -/
theorem C9_trigger_disarms_expiration (w : World) (name : String) (args : Args)
    (thrw : Nat → Bool) (ev : Event) (e : Execution) (tid : Nat)
    (hfind : w.emitter.events.find? (fun x => x.eventName == name) = some ev)
    (he : e ∈ ev.executions)
    (htid : e.state.expirationTimeout = some tid) :
    (∀ t ∈ (emitEvent w name args thrw).timers, t.timerId ≠ tid) ∧
    fireTimer (emitEvent w name args thrw) tid = emitEvent w name args thrw := by
  have habs : ∀ t ∈ (emitEvent w name args thrw).timers, t.timerId ≠ tid := by
    rw [emitEvent_timers_found args thrw hfind]
    obtain ⟨l₁, l₂, hsplit⟩ := List.append_of_mem he
    unfold eventExecute
    rw [hsplit, List.foldl_append, List.foldl_cons]
    exact foldl_timers_absent l₂ _ (fun t ht => executeStep_timers_cleared htid ht)
  refine ⟨habs, fireTimer_none ?_⟩
  apply List.find?_eq_none.mpr
  intro t ht
  simp [habs t ht]

/-- Witness for C9: emitting `"a"` in `wExpire` (a trigger before the
50ms timer fires) clears the pending timer, and firing it afterwards is
a no-op. -/
theorem C9_witness :
    (∀ t ∈ (emitEvent wExpire "a" [2] (fun _ => false)).timers, t.timerId ≠ (0 : Nat)) ∧
    fireTimer (emitEvent wExpire "a" [2] (fun _ => false)) 0
      = emitEvent wExpire "a" [2] (fun _ => false) :=
  C9_trigger_disarms_expiration wExpire "a" [2] (fun _ => false) evExpire eExpire 0
    (by decide) (by decide) (by decide)

theorem map_idem {α : Type} (g : α → α) (hg : ∀ a, g (g a) = g a) (l : List α) :
    (l.map g).map g = l.map g := by
  induction l with
  | nil => rfl
  | cons a l ih => simp only [List.map_cons, hg, ih]

theorem find?_map_replace {l : List Event} {p : Event → Bool} {ev : Event}
    (ev2 : Event) (h : l.find? p = some ev) (h2 : p ev2 = true) :
    (l.map (fun a => if a.eventId == ev.eventId then ev2 else a)).find? p = some ev2 := by
  induction l with
  | nil => simp at h
  | cons a l ih =>
    rw [List.map_cons]
    by_cases hpa : p a = true
    · rw [List.find?_cons_of_pos _ hpa] at h
      injection h with h
      subst h
      rw [if_pos (by simp)]
      exact List.find?_cons_of_pos _ h2
    · rw [List.find?_cons_of_neg _ hpa] at h
      by_cases hid : (a.eventId == ev.eventId) = true
      · rw [if_pos hid]
        exact List.find?_cons_of_pos _ h2
      · rw [if_neg hid, List.find?_cons_of_neg _ hpa]
        exact ih h

theorem removeExecution_not_found {w : World} {name : String} (i : Nat)
    (h : w.emitter.events.find? (fun e => e.eventName == name) = none) :
    removeExecution w name i = w := by
  simp only [removeExecution, h]

theorem removeExecution_found {w : World} {name : String} {ev : Event} (i : Nat)
    (h : w.emitter.events.find? (fun e => e.eventName == name) = some ev) :
    removeExecution w name i =
      if ((removalResult ev i).executions.length == 0) = true then
        {w with emitter := {w.emitter with events :=
          (removalWriteBack w.emitter.events ev i).filter (fun e => e.eventName != name)}}
      else
        {w with emitter := {w.emitter with events := removalWriteBack w.emitter.events ev i}} := by
  simp only [removeExecution, removalResult, removalWriteBack, h]

theorem find?_removalWriteBack {l : List Event} {name : String} {ev : Event} (i : Nat)
    (h : l.find? (fun e => e.eventName == name) = some ev) :
    (removalWriteBack l ev i).find? (fun e => e.eventName == name)
      = some (removalResult ev i) := by
  unfold removalWriteBack
  refine find?_map_replace (removalResult ev i) h ?_
  have hpred := List.find?_some h
  exact hpred

theorem removalResult_idem (ev : Event) (i : Nat) :
    removalResult (removalResult ev i) i = removalResult ev i := by
  unfold removalResult
  have hff : (ev.executions.filter (fun x => x.executionId != i)).filter
      (fun x => x.executionId != i)
        = ev.executions.filter (fun x => x.executionId != i) := by
    rw [List.filter_filter]
    simp
  simp [hff]

theorem removalWriteBack_idem (l : List Event) (ev : Event) (i : Nat) :
    removalWriteBack (removalWriteBack l ev i) (removalResult ev i) i
      = removalWriteBack l ev i := by
  unfold removalWriteBack
  rw [removalResult_idem]
  rw [show (removalResult ev i).eventId = ev.eventId from rfl]
  apply map_idem
  intro a
  dsimp only
  have hcr : ((removalResult ev i).eventId == ev.eventId) = true := by
    simp [removalResult]
  by_cases hc : (a.eventId == ev.eventId) = true
  · rw [if_pos hc, if_pos hcr]
  · rw [if_neg hc, if_neg hc]

/-- A `removeExecution` call that finds an already-stable event (nothing
left to filter, still nonempty) changes nothing. -/
theorem removeExecution_noop (w : World) (name : String) (i : Nat) (ev : Event)
    (hfind : w.emitter.events.find? (fun e => e.eventName == name) = some ev)
    (hstable : removalResult ev i = ev)
    (hne : ¬((ev.executions.length == 0) = true))
    (hmapstable : removalWriteBack w.emitter.events ev i = w.emitter.events) :
    removeExecution w name i = w := by
  rw [removeExecution_found i hfind, hstable, hmapstable, if_neg hne]

/-- C10: removing one execution through the registry — what the returned
handle's `remove()` does — is idempotent on the whole program state: a
second identical call finds nothing left to remove, changes nothing and
raises no error (`removeExecution` is total). -/
theorem C10_handle_remove_idempotent (w : World) (name : String) (i : Nat) :
    removeExecution (removeExecution w name i) name i = removeExecution w name i := by
  cases hfind : w.emitter.events.find? (fun e => e.eventName == name) with
  | none =>
    have h1 : removeExecution w name i = w := removeExecution_not_found i hfind
    rw [h1, h1]
  | some ev =>
    by_cases hlen : (((removalResult ev i).executions.length == 0) = true)
    · rw [removeExecution_found i hfind, if_pos hlen]
      apply removeExecution_not_found i
      apply List.find?_eq_none.mpr
      intro x hx
      simp [bne_iff_ne.mp (List.mem_filter.mp hx).2]
    · rw [removeExecution_found i hfind, if_neg hlen]
      refine removeExecution_noop _ name i (removalResult ev i) ?_ ?_ ?_ ?_
      · exact find?_removalWriteBack i hfind
      · exact removalResult_idem ev i
      · exact hlen
      · exact removalWriteBack_idem w.emitter.events ev i

end EmitEvents
